import Mathlib

/-!
Shallow embedding of `tinysom/tinysom.py` (classes `SOM` and `SOM_cluster`).

Modelling conventions used throughout this development:

* Machine floats are modelled by exact real numbers `ℝ`.  The single place
  where IEEE-754 semantics differ observably from exact real arithmetic for
  the properties studied here is division by a zero denominator in the batch
  weight update; that division is modelled explicitly by `fdiv` below, whose
  codomain `FVal` distinguishes finite values from the non-finite results
  (NaN, signed infinities are merged into one `inf` marker).
* Randomness (the `np.random` draws of the `random` and `pca` weight
  initialisers) is modelled by passing the drawn matrices as explicit oracle
  arguments `randWts` / `pcaWts` to `SOM.fit`; the PCA eigendecomposition and
  noise generation are part of that oracle.  No claim in this development
  depends on the numeric content of the initial weights.
* Python mutates `self` in place and signals errors either by printing and
  returning `None` or by raising.  The embedded `fit` therefore returns the
  (possibly part-way mutated) state together with a `FitOutcome` describing
  how the call ended.
-/

set_option maxHeartbeats 1000000

/-- Squared lattice distance between linear neuron indices `i` and `j` on a
grid with `nCols` columns, as computed in `SOM.__init__`: the code forms
`ixs % n_cols` and `ixs // n_cols` for every linear index and sums the squared
componentwise differences (the two variables are named `rows`/`cols` in the
source, with the names swapped relative to the lattice convention; the sum is
the same either way). -/
def gridD2 (nCols : ℕ) (i j : ℕ) : ℤ :=
  (((i % nCols : ℕ) : ℤ) - ((j % nCols : ℕ) : ℤ)) ^ 2
    + (((i / nCols : ℕ) : ℤ) - ((j / nCols : ℕ) : ℤ)) ^ 2

/-- Index of the first minimum of a list, i.e. the tie-breaking rule of
`np.argmin` (lowest index attaining the minimum).  Returns `0` on `[]`. -/
def argminIdx {α : Type} [LinearOrder α] : List α → ℕ
  | [] => 0
  | [_] => 0
  | a :: b :: t =>
    if (b :: t).getD (argminIdx (b :: t)) b < a then argminIdx (b :: t) + 1 else 0

/-- Squared Euclidean distance between two feature vectors, the quantity
`((X[:,None]-wts)**2).sum(axis=2)` computes per sample/neuron pair. -/
noncomputable def sqDist (x w : List ℝ) : ℝ :=
  ((x.zip w).map (fun p => (p.1 - p.2) ^ 2)).sum

/-- Embeds `SOM.calc_BMUs`: for each sample row of `X`, the index of the neuron
(row of `wts`) with minimal squared Euclidean distance, first index on ties
(`argmin(axis=1)`). -/
noncomputable def calc_BMUs (wts : List (List ℝ)) (X : List (List ℝ)) : List ℕ :=
  X.map (fun x => argminIdx (wts.map (fun w => sqDist x w)))

/-- The per-epoch radius schedule `np.linspace(self.Rmax, 0.5, self.n_epochs)`
evaluated at epoch `e`; `np.linspace` with a single point returns `[start]`,
otherwise the points are `start + e * (stop - start)/(num - 1)` with the last
point equal to `stop` exactly. -/
noncomputable def sigs (Rmax : ℝ) (n : ℕ) (e : ℕ) : ℝ :=
  if n ≤ 1 then Rmax else Rmax + (e : ℝ) * ((1 / 2 - Rmax) / ((n : ℝ) - 1))

/-- The radius schedule as a list of length `n_epochs`. -/
noncomputable def sigList (Rmax : ℝ) (n : ℕ) : List ℝ :=
  (List.range n).map (sigs Rmax n)

/-- Embeds `np.clip(x, 0, 1)`. -/
noncomputable def clip01 (x : ℝ) : ℝ := min (max x 0) 1

/-- The kernel tensor built by `SOM.make_kernels` from the neighbourhood
family name, modelled as `epoch → i → j → weight`.  The `else` branch of the
source prints `Invalid neighbourhood` and returns `None` without assigning
`self.kernels`; that is modelled by the `none` result. -/
noncomputable def makeKernels (nb : String) (Rmax : ℝ) (n : ℕ) (d2 : ℕ → ℕ → ℤ) :
    Option (ℕ → ℕ → ℕ → ℝ) :=
  if nb = "bubble" then
    some (fun e i j => if Real.sqrt ((d2 i j : ℝ)) ≤ sigs Rmax n e then 1 else 0)
  else if nb = "linear" then
    some (fun e i j => clip01 (1 - Real.sqrt ((d2 i j : ℝ)) / sigs Rmax n e))
  else if nb = "exponential" then
    some (fun e i j => Real.exp (-(Real.sqrt ((d2 i j : ℝ)) / (2 * sigs Rmax n e))))
  else if nb = "gaussian" then
    some (fun e i j => Real.exp (-((d2 i j : ℝ) / (2 * sigs Rmax n e))))
  else none

/-- Result of an IEEE-754 floating-point operation: a finite value, an
infinity (sign not tracked), or NaN. -/
inductive FVal where
  | fin (x : ℝ)
  | inf
  | nan

/-- IEEE-754 division of two finite values: a zero denominator yields NaN
when the numerator is also zero and an infinity otherwise; any nonzero
denominator yields the exact quotient. -/
noncomputable def fdiv (a b : ℝ) : FVal :=
  if b = 0 then (if a = 0 then FVal.nan else FVal.inf) else FVal.fin (a / b)

/-- Numerator of the batch update in `SOM.fit`:
`num = (X[:,None] * self.kernels[i][bmus][:,:,None]).sum(axis=0)`, i.e.
`num[j, f] = Σ_i X[i, f] * K[bmus[i], j]`. -/
noncomputable def fitNum (X : List (List ℝ)) (K : ℕ → ℕ → ℝ) (bm : List ℕ)
    (j f : ℕ) : ℝ :=
  ∑ i ∈ Finset.range X.length, ((X.getD i []).getD f 0) * K (bm.getD i 0) j

/-- Denominator of the batch update in `SOM.fit`:
`denom = self.kernels[i][bmus].sum(axis=0)`, i.e.
`denom[j] = Σ_i K[bmus[i], j]`. -/
noncomputable def fitDenom (X : List (List ℝ)) (K : ℕ → ℕ → ℝ) (bm : List ℕ)
    (j : ℕ) : ℝ :=
  ∑ i ∈ Finset.range X.length, K (bm.getD i 0) j

/-- The weight matrix `num/denom[:,None]` assigned by one epoch of `SOM.fit`,
with `k` neurons and `nFeat` features.  Exact real division is used here; the
degenerate zero-denominator entries are analysed through `fdiv`. -/
noncomputable def updateWts (k nFeat : ℕ) (X : List (List ℝ)) (K : ℕ → ℕ → ℝ)
    (bm : List ℕ) : List (List ℝ) :=
  (List.range k).map (fun j =>
    (List.range nFeat).map (fun f => fitNum X K bm j f / fitDenom X K bm j))

/-- One epoch of the training loop of `SOM.fit`: recompute BMUs against the
current weights, then replace the weights by the kernel-weighted centroids. -/
noncomputable def epochStep (k nFeat : ℕ) (X : List (List ℝ)) (K : ℕ → ℕ → ℝ)
    (w : List (List ℝ)) : List (List ℝ) :=
  updateWts k nFeat X K (calc_BMUs w X)

/-- The weights after `n` epochs of the training loop of `SOM.fit`, starting
from `w`; epoch `e` uses kernel matrix `Ks e` (`self.kernels[i]`). -/
noncomputable def loopWts (k nFeat : ℕ) (X : List (List ℝ)) (Ks : ℕ → ℕ → ℕ → ℝ) :
    ℕ → List (List ℝ) → List (List ℝ)
  | 0, w => w
  | n + 1, w => epochStep k nFeat X (Ks n) (loopWts k nFeat X Ks n w)

/-- The mutable state of a `SOM` instance.  `bmus`, `wts`, `dmat`, `inertia_`
and `kernels` are `None`/unset on a fresh instance (for `kernels`, accessing
it before `make_kernels` has run raises `AttributeError` in Python, modelled
by the `none` case of the field). -/
structure SOM where
  n_rows : ℕ
  n_cols : ℕ
  neighbourhood : String
  n_epochs : ℕ
  h0_Rmax : ℝ
  hN_R1 : ℝ
  Rmax : ℝ
  initial : String
  bmus : Option (List ℕ)
  wts : Option (List (List ℝ))
  kernels : Option (ℕ → ℕ → ℕ → ℝ)
  d2mat : ℕ → ℕ → ℤ
  dmat : Option (ℕ → ℕ → ℝ)
  inertia_ : Option ℝ

/-- Embeds `SOM.__init__`: stores the configuration, computes the default `Rmax`
(the lattice diagonal) when `None` is passed, and builds the squared-distance
matrix `d2mat`.  The body contains no validation and no operation that can
raise for any natural-number dimensions. -/
noncomputable def SOM.init (n_rows n_cols : ℕ) (neighbourhood : String)
    (n_epochs : ℕ) (h0_Rmax hN_R1 : ℝ) (Rmax : Option ℝ) (initial : String) : SOM :=
  { n_rows := n_rows
    n_cols := n_cols
    neighbourhood := neighbourhood
    n_epochs := n_epochs
    h0_Rmax := h0_Rmax
    hN_R1 := hN_R1
    Rmax :=
      match Rmax with
      | none => Real.sqrt (((n_cols : ℝ) - 1) ^ 2 + ((n_rows : ℝ) - 1) ^ 2)
      | some r => r
    initial := initial
    bmus := none
    wts := none
    kernels := none
    d2mat := gridD2 n_cols
    dmat := none
    inertia_ := none }

/-- Construction with the failure channel made explicit: the constructor body
raises on no input (there is no dimension check, and `np.arange` of a
non-positive count simply yields an empty index range), so the result is
always `some`. -/
noncomputable def SOM.init? (n_rows n_cols : ℕ) (neighbourhood : String)
    (n_epochs : ℕ) (h0_Rmax hN_R1 : ℝ) (Rmax : Option ℝ) (initial : String) :
    Option SOM :=
  some (SOM.init n_rows n_cols neighbourhood n_epochs h0_Rmax hN_R1 Rmax initial)

/-- Embeds `SOM.make_kernels` as a state transformer: on a recognised family it
assigns `self.kernels`; on an unrecognised family it prints and returns
`None`, leaving `self.kernels` untouched. -/
noncomputable def SOM.make_kernels (s : SOM) : SOM :=
  match makeKernels s.neighbourhood s.Rmax s.n_epochs s.d2mat with
  | some K => { s with kernels := some K }
  | none => s

/-- How a call to the embedded `SOM.fit` ended: normal return, the
print-and-return-`None` path for an unrecognised `initial`, or the
`AttributeError` raised at `self.kernels[i]` when the kernels were never
assigned. -/
inductive FitOutcome where
  | ok
  | invalidInitial
  | missingKernels
deriving DecidableEq

/-- Embeds `SOM.fit`: initialise the weights (the drawn/PCA matrices are the oracle
arguments `randWts`/`pcaWts`; an unrecognised `initial` prints and returns
`None` before any state mutation), call `make_kernels` (whose `None` result
is ignored by the source), run the epoch loop — which raises at
`self.kernels[i]` if the kernels were never assigned — then store the final
BMUs, the feature-space distance matrix `dmat` and the inertia. -/
noncomputable def SOM.fit (randWts pcaWts : List (List ℝ)) (s : SOM)
    (X : List (List ℝ)) : SOM × FitOutcome :=
  match (if s.initial = "random" then some randWts
         else if s.initial = "pca" then some pcaWts else none) with
  | none => (s, FitOutcome.invalidInitial)
  | some w0 =>
    let s2 := SOM.make_kernels { s with wts := some w0 }
    match s2.kernels with
    | none => (s2, FitOutcome.missingKernels)
    | some Ks =>
      let k := s.n_rows * s.n_cols
      let nFeat := (X.headD []).length
      let wN := loopWts k nFeat X Ks s.n_epochs w0
      let bmusN := calc_BMUs wN X
      ({ s2 with
          wts := some wN
          bmus := some bmusN
          dmat := some (fun i j => Real.sqrt (sqDist (wN.getD i []) (wN.getD j [])))
          inertia_ := some (∑ i ∈ Finset.range X.length,
            sqDist (X.getD i []) (wN.getD (bmusN.getD i 0) [])) },
        FitOutcome.ok)

/-- Embeds `SOM.predict`: prints and returns `None` when the weights are unset,
otherwise returns the cached training-time BMU vector; the argument `X` is
ignored by the body. -/
def SOM.predict (s : SOM) (X : List (List ℝ)) : Option (List ℕ) :=
  match s.wts with
  | none => none
  | some _ => s.bmus

/-- The state of a `SOM_cluster` instance (subclass of `SOM`); class labels
are modelled as exact rationals, with `none` standing for the NaN sentinel
used by the source for an unset `neuron_to_label` entry. -/
structure SOM_cluster extends SOM where
  n_clusters : ℕ
  neuron_to_label : List (Option ℚ)
  labels_ : Option (List ℕ)

/-- Embeds `SOM_cluster.__init__`: runs the base constructor and creates the
`neuron_to_label` array filled with NaN. -/
noncomputable def SOM_cluster.init (n_clusters n_rows n_cols : ℕ)
    (neighbourhood : String) (n_epochs : ℕ) (h0_Rmax hN_R1 : ℝ) (Rmax : Option ℝ)
    (initial : String) : SOM_cluster :=
  { toSOM := SOM.init n_rows n_cols neighbourhood n_epochs h0_Rmax hN_R1 Rmax initial
    n_clusters := n_clusters
    neuron_to_label := List.replicate (n_cols * n_rows) none
    labels_ := none }

/-- The second-stage trainer constructed in the unsupervised branch of
`SOM_cluster.fit`: `SOM(1, self.n_clusters)` with every other constructor
argument left at its default (`gaussian`, 10 epochs, `h0_Rmax=0.5`,
`hN_R1=0.01`, `Rmax=None`, `pca`). -/
noncomputable def secondStageSOM (n_clusters : ℕ) : SOM :=
  SOM.init 1 n_clusters "gaussian" 10 (1 / 2) (1 / 100) none "pca"

/-- Embeds `y[self.bmus == i]`: the labels of the samples whose BMU is neuron `i`. -/
def labelsFor (bm : List ℕ) (y : List ℚ) (i : ℕ) : List ℚ :=
  ((bm.zip y).filter (fun p => p.1 == i)).map (fun p => p.2)

/-- The `values` array of `np.unique`: distinct elements in ascending order. -/
def uniqueSorted (l : List ℚ) : List ℚ :=
  l.dedup.insertionSort (· ≤ ·)

/-- Majority vote over a label multiset, as in the supervised branch:
`values, counts = np.unique(labels_i, return_counts=True)` followed by
`values[np.argmax(counts)]` when `counts.size > 0` (`np.argmax` keeps the
first maximum, i.e. the smallest value among maximal counts); `none` models
the `counts.size == 0` case in which no assignment happens. -/
def majorityLabel (l : List ℚ) : Option ℚ :=
  match uniqueSorted l with
  | [] => none
  | v :: vs => some (vs.foldl (fun best w => if l.count best < l.count w then w else best) v)

/-- The majority-vote pass of the supervised branch over all `k` neurons,
starting from the current `neuron_to_label` contents `ini` (entries with an
empty vote keep their previous value, NaN on a fresh instance). -/
def voteLabels (k : ℕ) (ini : List (Option ℚ)) (bm : List ℕ) (y : List ℚ) :
    List (Option ℚ) :=
  (List.range k).map (fun i =>
    match majorityLabel (labelsFor bm y i) with
    | some v => some v
    | none => ini.getD i none)

/-- Row `i` of `dmat_nonan = np.where(np.isnan(self.neuron_to_label), np.inf,
self.dmat)`: the feature-space distances with the columns of unlabelled
neurons forced to infinity (`⊤`). -/
noncomputable def maskedRow (labels : List (Option ℚ)) (dm : ℕ → ℕ → ℝ)
    (k i : ℕ) : List (WithTop ℝ) :=
  (List.range k).map (fun j =>
    match labels.getD j none with
    | none => (⊤ : WithTop ℝ)
    | some _ => ((dm i j : ℝ) : WithTop ℝ))

/-- The supervised labelling step of `SOM_cluster.fit` (majority vote, then
backfill of unset entries from `neuron_to_label[nearest_nonan]`, where
`nearest_nonan = dmat_nonan.argsort(axis=1)[:,0]` is an index of a minimal
entry of the masked row; the embedding takes the first minimal index). -/
noncomputable def superviseLabels (k : ℕ) (ini : List (Option ℚ)) (bm : List ℕ)
    (y : List ℚ) (dm : ℕ → ℕ → ℝ) : List (Option ℚ) :=
  let vote := voteLabels k ini bm y
  (List.range k).map (fun i =>
    match vote.getD i none with
    | some v => some v
    | none => vote.getD (argminIdx (maskedRow vote dm k i)) none)

/-- Embeds `SOM_cluster.fit`: base training first; then either unsupervised
clustering of the trained weight rows by a fresh default second-stage `SOM`,
or supervised majority-vote labelling with nearest-neighbour backfill.  The
oracle pairs `r1, p1` and `r2, p2` are the initialiser draws consumed by the
first- and second-stage `SOM.fit` calls respectively. -/
noncomputable def SOM_cluster.fit (r1 p1 r2 p2 : List (List ℝ))
    (c : SOM_cluster) (X : List (List ℝ)) (y : Option (List ℚ)) :
    SOM_cluster × FitOutcome :=
  match SOM.fit r1 p1 c.toSOM X with
  | (s1, FitOutcome.ok) =>
    match y with
    | none =>
      match SOM.fit r2 p2 (secondStageSOM c.n_clusters) (s1.wts.getD []) with
      | (s2, FitOutcome.ok) =>
        ({ c with
            toSOM := s1
            neuron_to_label := (s2.bmus.getD []).map (fun b => some ((b : ℚ)))
            labels_ := some ((s1.bmus.getD []).map (fun b => (s2.bmus.getD []).getD b 0)) },
          FitOutcome.ok)
      | (_, o2) => ({ c with toSOM := s1 }, o2)
    | some ylist =>
      ({ c with
          toSOM := s1
          neuron_to_label := superviseLabels (c.n_cols * c.n_rows) c.neuron_to_label
            (s1.bmus.getD []) ylist (s1.dmat.getD (fun _ _ => 0)) },
        FitOutcome.ok)
  | (s1, o) => ({ c with toSOM := s1 }, o)

/-- Embeds `SOM_cluster.predict`: not-fitted check (`neuron_to_label` all NaN) and
lookup of fresh BMUs in the label map. -/
noncomputable def SOM_cluster.predict (c : SOM_cluster) (X : List (List ℝ)) :
    Option (List (Option ℚ)) :=
  if c.neuron_to_label.all (fun v => v == none) then none
  else
    some ((calc_BMUs (c.wts.getD []) X).map (fun b => c.neuron_to_label.getD b none))

/-! ### Helper lemmas about `argminIdx` -/

theorem getD_default_eq {α : Type} (l : List α) {n : ℕ} (h : n < l.length) (d e : α) :
    l.getD n d = l.getD n e := by
  rw [List.getD_eq_getElem l d h, List.getD_eq_getElem l e h]

theorem argminIdx_lt_length {α : Type} [LinearOrder α] :
    ∀ (l : List α), l ≠ [] → argminIdx l < l.length := by
  intro l
  induction l with
  | nil => intro h; exact absurd rfl h
  | cons a t ih =>
    intro _
    cases t with
    | nil => simp [argminIdx]
    | cons b t2 =>
      have h2 := ih (by simp)
      by_cases hc : (b :: t2).getD (argminIdx (b :: t2)) b < a
      · have harg : argminIdx (a :: b :: t2) = argminIdx (b :: t2) + 1 := by
          simp only [argminIdx]; rw [if_pos hc]
        rw [harg]
        simpa using Nat.succ_lt_succ h2
      · have harg : argminIdx (a :: b :: t2) = 0 := by
          simp only [argminIdx]; rw [if_neg hc]
        simp [harg]

theorem argminIdx_le {α : Type} [LinearOrder α] :
    ∀ (l : List α) (d : α) (j : ℕ), j < l.length →
      l.getD (argminIdx l) d ≤ l.getD j d := by
  intro l
  induction l with
  | nil => intro d j hj; simp at hj
  | cons a t ih =>
    intro d j hj
    cases t with
    | nil =>
      have hj0 : j = 0 := by simpa using Nat.lt_one_iff.mp (by simpa using hj)
      subst hj0; simp [argminIdx]
    | cons b t2 =>
      have hk := argminIdx_lt_length (b :: t2) (by simp)
      by_cases hc : (b :: t2).getD (argminIdx (b :: t2)) b < a
      · have harg : argminIdx (a :: b :: t2) = argminIdx (b :: t2) + 1 := by
          simp only [argminIdx]; rw [if_pos hc]
        rw [harg, List.getD_cons_succ]
        cases j with
        | zero =>
          have hle := le_of_lt hc
          rwa [getD_default_eq (b :: t2) hk b d] at hle
        | succ j =>
          have hj2 : j < (b :: t2).length := by
            simpa using Nat.lt_of_succ_lt_succ (by simpa using hj)
          simpa using ih d j hj2
      · have harg : argminIdx (a :: b :: t2) = 0 := by
          simp only [argminIdx]; rw [if_neg hc]
        rw [harg]
        push_neg at hc
        cases j with
        | zero => simp
        | succ j =>
          have hj2 : j < (b :: t2).length := by
            simpa using Nat.lt_of_succ_lt_succ (by simpa using hj)
          have h1 : a ≤ (b :: t2).getD (argminIdx (b :: t2)) d := by
            rwa [getD_default_eq (b :: t2) hk b d] at hc
          calc (a :: b :: t2).getD 0 d = a := rfl
            _ ≤ (b :: t2).getD (argminIdx (b :: t2)) d := h1
            _ ≤ (b :: t2).getD j d := ih d j hj2
            _ = (a :: b :: t2).getD (j + 1) d := rfl

theorem argminIdx_first {α : Type} [LinearOrder α] :
    ∀ (l : List α) (d : α) (j : ℕ), j < argminIdx l →
      l.getD (argminIdx l) d < l.getD j d := by
  intro l
  induction l with
  | nil => intro d j hj; simp [argminIdx] at hj
  | cons a t ih =>
    intro d j hj
    cases t with
    | nil => simp [argminIdx] at hj
    | cons b t2 =>
      have hk := argminIdx_lt_length (b :: t2) (by simp)
      by_cases hc : (b :: t2).getD (argminIdx (b :: t2)) b < a
      · have harg : argminIdx (a :: b :: t2) = argminIdx (b :: t2) + 1 := by
          simp only [argminIdx]; rw [if_pos hc]
        rw [harg, List.getD_cons_succ]
        rw [harg] at hj
        cases j with
        | zero =>
          have hlt := hc
          rwa [getD_default_eq (b :: t2) hk b d] at hlt
        | succ j =>
          have hj2 : j < argminIdx (b :: t2) := Nat.lt_of_succ_lt_succ hj
          simpa using ih d j hj2
      · have harg : argminIdx (a :: b :: t2) = 0 := by
          simp only [argminIdx]; rw [if_neg hc]
        rw [harg] at hj
        exact absurd hj (Nat.not_lt_zero j)

theorem getD_map_lt {α β : Type} (f : α → β) (l : List α) (n : ℕ)
    (h : n < l.length) (d : β) (d' : α) :
    (l.map f).getD n d = f (l.getD n d') := by
  rw [List.getD_eq_getElem _ d (by simpa using h), List.getD_eq_getElem _ d' h,
    List.getElem_map]

/-- C2: for every data matrix `X` and nonempty weight matrix `wts`, entry `i`
of `calc_BMUs wts X` is a valid neuron index minimising the squared Euclidean
distance to sample `i`, and it is the lowest such index (stable argmin). -/
theorem calc_BMUs_stable_argmin (X wts : List (List ℝ)) (hw : wts ≠ [])
    (i : ℕ) (hi : i < X.length) :
    (calc_BMUs wts X).getD i 0 < wts.length ∧
    (∀ j, j < wts.length →
      sqDist (X.getD i []) (wts.getD ((calc_BMUs wts X).getD i 0) []) ≤
        sqDist (X.getD i []) (wts.getD j [])) ∧
    (∀ j, j < (calc_BMUs wts X).getD i 0 →
      sqDist (X.getD i []) (wts.getD ((calc_BMUs wts X).getD i 0) []) <
        sqDist (X.getD i []) (wts.getD j [])) := by
  set x := X.getD i [] with hx
  have hc : (calc_BMUs wts X).getD i 0 = argminIdx (wts.map (fun w => sqDist x w)) := by
    unfold calc_BMUs
    exact getD_map_lt _ X i hi 0 []
  set L := wts.map (fun w => sqDist x w) with hL
  have hLlen : L.length = wts.length := by simp [hL]
  have hLne : L ≠ [] := by
    simpa [hL, List.map_eq_nil_iff] using hw
  have hlt : argminIdx L < wts.length := by
    rw [← hLlen]; exact argminIdx_lt_length L hLne
  have hgetL : ∀ j, j < wts.length → L.getD j 0 = sqDist x (wts.getD j []) := by
    intro j hj; exact getD_map_lt _ wts j hj 0 []
  refine ⟨?_, ?_, ?_⟩
  · rw [hc]; exact hlt
  · intro j hj
    have hmin := argminIdx_le L 0 j (by rw [hLlen]; exact hj)
    rw [hgetL _ hlt, hgetL _ hj] at hmin
    rw [hc]; exact hmin
  · intro j hj
    rw [hc] at hj ⊢
    have hfst := argminIdx_first L 0 j hj
    rw [hgetL _ hlt, hgetL _ (lt_trans hj hlt)] at hfst
    exact hfst

/-- Witness for C2 at a concrete input. -/
theorem calc_BMUs_stable_argmin_witness :
    ((calc_BMUs [[(0 : ℝ)], [2]] [[(1 : ℝ)]]).getD 0 0 < 2) ∧
    (∀ j, j < 2 →
      sqDist [(1 : ℝ)]
          ([[(0 : ℝ)], [2]].getD ((calc_BMUs [[(0 : ℝ)], [2]] [[(1 : ℝ)]]).getD 0 0) []) ≤
        sqDist [(1 : ℝ)] ([[(0 : ℝ)], [2]].getD j [])) := by
  have h := calc_BMUs_stable_argmin [[(1 : ℝ)]] [[(0 : ℝ)], [2]] (by simp) 0 (by simp)
  exact ⟨by simpa using h.1, by simpa using h.2.1⟩

/-! ### The radius schedule -/

theorem sigs_zero (Rmax : ℝ) (n : ℕ) : sigs Rmax n 0 = Rmax := by
  unfold sigs
  split <;> simp

theorem sigs_last (Rmax : ℝ) (n : ℕ) (hn : 2 ≤ n) : sigs Rmax n (n - 1) = 1 / 2 := by
  unfold sigs
  rw [if_neg (by omega)]
  have h1 : ((n - 1 : ℕ) : ℝ) = (n : ℝ) - 1 := by
    push_cast [Nat.cast_sub (by omega : 1 ≤ n)]; ring
  have h2 : (n : ℝ) - 1 ≠ 0 := by
    have : (2 : ℝ) ≤ (n : ℝ) := by exact_mod_cast hn
    nlinarith
  rw [h1]
  field_simp
  ring

theorem sigs_strict_anti (Rmax : ℝ) (n : ℕ) (hn : 2 ≤ n) (hR : 1 / 2 < Rmax)
    (e f : ℕ) (hef : e < f) : sigs Rmax n f < sigs Rmax n e := by
  unfold sigs
  rw [if_neg (by omega), if_neg (by omega)]
  have hpos : (0 : ℝ) < (n : ℝ) - 1 := by
    have : (2 : ℝ) ≤ (n : ℝ) := by exact_mod_cast hn
    nlinarith
  have hstep : (1 / 2 - Rmax) / ((n : ℝ) - 1) < 0 :=
    div_neg_of_neg_of_pos (by nlinarith) hpos
  have hcast : (e : ℝ) < (f : ℝ) := by exact_mod_cast hef
  nlinarith [mul_lt_mul_of_neg_right hcast hstep]

theorem sigs_pos (Rmax : ℝ) (n : ℕ) (e : ℕ) (hR : 1 / 2 ≤ Rmax) (he : e < n) :
    0 < sigs Rmax n e := by
  unfold sigs
  split
  · linarith
  · have hn : 2 ≤ n := by omega
    have hpos : (0 : ℝ) < (n : ℝ) - 1 := by
      have : (2 : ℝ) ≤ (n : ℝ) := by exact_mod_cast hn
      nlinarith
    have hcast : (e : ℝ) ≤ (n : ℝ) - 1 := by
      have : (e : ℝ) ≤ ((n - 1 : ℕ) : ℝ) := by exact_mod_cast (by omega : e ≤ n - 1)
      rwa [Nat.cast_sub (by omega : 1 ≤ n), Nat.cast_one] at this
    have hkey : 0 ≤ (Rmax - 1 / 2) * (((n : ℝ) - 1) - (e : ℝ)) := by
      apply mul_nonneg (by linarith) (by linarith)
    have heq : Rmax + (e : ℝ) * ((1 / 2 - Rmax) / ((n : ℝ) - 1)) =
        (Rmax * ((n : ℝ) - 1) + (e : ℝ) * (1 / 2 - Rmax)) / ((n : ℝ) - 1) := by
      field_simp
      ring
    rw [heq]
    apply div_pos ?_ hpos
    nlinarith [hkey, hpos]

/-- C3 counterexample: with `n_epochs = 1` and `Rmax = 2` the schedule is the
single entry `[2]`, so its last entry `sig[n_epochs - 1]` is `2`, not `0.5`. -/
theorem sig_last_single_epoch_cex :
    sigList 2 1 = [2] ∧ sigs 2 1 (1 - 1) = 2 ∧ (2 : ℝ) ≠ 1 / 2 := by
  refine ⟨?_, ?_, by norm_num⟩
  · simp [sigList, List.range_succ, sigs]
  · simp [sigs]

/-- C3 (amended): `sig` has length `n_epochs` and `sig[0] = Rmax`; when
`n_epochs ≥ 2` the last entry equals `0.5` exactly, and when moreover
`Rmax > 0.5` the schedule is strictly monotone decreasing. -/
theorem sig_schedule_amended (Rmax : ℝ) (n : ℕ) :
    (sigList Rmax n).length = n ∧
    sigs Rmax n 0 = Rmax ∧
    (2 ≤ n → sigs Rmax n (n - 1) = 1 / 2) ∧
    (2 ≤ n → 1 / 2 < Rmax → ∀ e f, e < f → f < n → sigs Rmax n f < sigs Rmax n e) := by
  refine ⟨by simp [sigList], sigs_zero Rmax n, fun hn => sigs_last Rmax n hn, ?_⟩
  intro hn hR e f hef _
  exact sigs_strict_anti Rmax n hn hR e f hef

/-- Witness for C3 (amended) at `Rmax = 3`, `n_epochs = 3`. -/
theorem sig_schedule_amended_witness :
    (sigList 3 3).length = 3 ∧ sigs 3 3 0 = 3 ∧ sigs 3 3 (3 - 1) = 1 / 2 ∧
      sigs 3 3 2 < sigs 3 3 1 := by
  have h := sig_schedule_amended 3 3
  exact ⟨h.1, h.2.1, h.2.2.1 (by norm_num),
    h.2.2.2 (by norm_num) (by norm_num) 1 2 (by norm_num) (by norm_num)⟩

/-! ### The lattice distance matrix and the kernel families -/

theorem gridD2_self (c i : ℕ) : gridD2 c i i = 0 := by
  simp [gridD2]

theorem gridD2_symm (c i j : ℕ) : gridD2 c i j = gridD2 c j i := by
  unfold gridD2; ring

theorem gridD2_nonneg (c i j : ℕ) : 0 ≤ gridD2 c i j := by
  unfold gridD2; positivity

theorem makeKernels_gaussian (Rmax : ℝ) (n : ℕ) (d2 : ℕ → ℕ → ℤ) :
    makeKernels "gaussian" Rmax n d2 =
      some (fun e i j => Real.exp (-((d2 i j : ℝ) / (2 * sigs Rmax n e)))) := by
  rfl

theorem makeKernels_exponential (Rmax : ℝ) (n : ℕ) (d2 : ℕ → ℕ → ℤ) :
    makeKernels "exponential" Rmax n d2 =
      some (fun e i j => Real.exp (-(Real.sqrt ((d2 i j : ℝ)) / (2 * sigs Rmax n e)))) := by
  rfl

theorem makeKernels_linear (Rmax : ℝ) (n : ℕ) (d2 : ℕ → ℕ → ℤ) :
    makeKernels "linear" Rmax n d2 =
      some (fun e i j => clip01 (1 - Real.sqrt ((d2 i j : ℝ)) / sigs Rmax n e)) := by
  rfl

theorem makeKernels_bubble (Rmax : ℝ) (n : ℕ) (d2 : ℕ → ℕ → ℤ) :
    makeKernels "bubble" Rmax n d2 =
      some (fun e i j => if Real.sqrt ((d2 i j : ℝ)) ≤ sigs Rmax n e then 1 else 0) := by
  rfl

/-- C4: for the `gaussian`, `exponential` and `linear` families, the kernel
weight at any epoch `e < n_epochs` (so the radius is positive, given
`Rmax ≥ 0.5`) is non-increasing in the grid distance `D2[i,j]`, and the
self-weight `K[e,i,i]` equals `1`. -/
theorem kernel_monotone_self_weight (c n : ℕ) (Rmax : ℝ) (nb : String)
    (K : ℕ → ℕ → ℕ → ℝ)
    (hnb : nb = "gaussian" ∨ nb = "exponential" ∨ nb = "linear")
    (hmk : makeKernels nb Rmax n (gridD2 c) = some K)
    (hR : 1 / 2 ≤ Rmax) (e : ℕ) (he : e < n) :
    (∀ i j p q, gridD2 c i j ≤ gridD2 c p q → K e p q ≤ K e i j) ∧
    (∀ i, K e i i = 1) := by
  have hs : 0 < sigs Rmax n e := sigs_pos Rmax n e hR he
  rcases hnb with h | h | h
  · subst h
    rw [makeKernels_gaussian] at hmk
    injection hmk with hK
    subst hK
    constructor
    · intro i j p q hle
      rw [Real.exp_le_exp]
      apply neg_le_neg
      rw [div_le_div_iff_of_pos_right (by positivity)]
      exact_mod_cast hle
    · intro i
      simp [gridD2_self]
  · subst h
    rw [makeKernels_exponential] at hmk
    injection hmk with hK
    subst hK
    constructor
    · intro i j p q hle
      rw [Real.exp_le_exp]
      apply neg_le_neg
      rw [div_le_div_iff_of_pos_right (by positivity)]
      exact Real.sqrt_le_sqrt (by exact_mod_cast hle)
    · intro i
      simp [gridD2_self]
  · subst h
    rw [makeKernels_linear] at hmk
    injection hmk with hK
    subst hK
    constructor
    · intro i j p q hle
      unfold clip01
      have hsq : Real.sqrt ((gridD2 c i j : ℝ)) ≤ Real.sqrt ((gridD2 c p q : ℝ)) :=
        Real.sqrt_le_sqrt (by exact_mod_cast hle)
      have hdiv : Real.sqrt ((gridD2 c i j : ℝ)) / sigs Rmax n e ≤
          Real.sqrt ((gridD2 c p q : ℝ)) / sigs Rmax n e := by
        rw [div_le_div_iff_of_pos_right hs]
        exact hsq
      exact min_le_min (max_le_max (by linarith) le_rfl) le_rfl
    · intro i
      simp [gridD2_self, clip01]

/-- Witness for C4: the gaussian family on a 2-column lattice with
`Rmax = 1`, one epoch. -/
theorem kernel_monotone_self_weight_witness :
    Real.exp (-((gridD2 2 0 1 : ℝ) / (2 * sigs 1 1 0))) ≤
      Real.exp (-((gridD2 2 0 0 : ℝ) / (2 * sigs 1 1 0))) ∧
    Real.exp (-((gridD2 2 1 1 : ℝ) / (2 * sigs 1 1 0))) = 1 := by
  have h := kernel_monotone_self_weight 2 1 1 "gaussian" _ (Or.inl rfl)
    (makeKernels_gaussian 1 1 (gridD2 2)) (by norm_num) 0 (by norm_num)
  exact ⟨h.1 0 0 0 1 (by decide), h.2 1⟩

theorem make_kernels_d2mat (s : SOM) : (SOM.make_kernels s).d2mat = s.d2mat := by
  unfold SOM.make_kernels
  split <;> rfl

theorem fit_d2mat (randWts pcaWts : List (List ℝ)) (s : SOM) (X : List (List ℝ)) :
    (SOM.fit randWts pcaWts s X).1.d2mat = s.d2mat := by
  unfold SOM.fit
  split
  · rfl
  · dsimp only
    split
    · exact make_kernels_d2mat _
    · exact make_kernels_d2mat _

theorem cluster_fit_d2mat (r1 p1 r2 p2 : List (List ℝ)) (c : SOM_cluster)
    (X : List (List ℝ)) (y : Option (List ℚ)) :
    (SOM_cluster.fit r1 p1 r2 p2 c X y).1.d2mat = c.d2mat := by
  have hbase := fit_d2mat r1 p1 c.toSOM X
  unfold SOM_cluster.fit
  rcases hf : SOM.fit r1 p1 c.toSOM X with ⟨s1, o⟩
  rw [hf] at hbase
  cases o with
  | ok =>
    cases y with
    | none =>
      rcases hf2 : SOM.fit r2 p2 (secondStageSOM c.n_clusters) (s1.wts.getD []) with ⟨s2, o2⟩
      cases o2 <;> simpa [hf2] using hbase
    | some ylist => simpa using hbase
  | invalidInitial => simpa using hbase
  | missingKernels => simpa using hbase

/-- C5: the distance-squared matrix built at construction satisfies
`D2[i,j] = (i//cols - j//cols)^2 + (i%cols - j%cols)^2`, has zero diagonal,
is symmetric with non-negative integer entries, and is preserved unchanged by
`make_kernels`, `SOM.fit` and `SOM_cluster.fit`. -/
theorem d2mat_invariants (r c : ℕ) (hr : 1 ≤ r) (hc : 1 ≤ c) (nb : String)
    (ne : ℕ) (h0 hN : ℝ) (rm : Option ℝ) (ini : String) :
    (∀ i j, (SOM.init r c nb ne h0 hN rm ini).d2mat i j =
      (((i / c : ℕ) : ℤ) - ((j / c : ℕ) : ℤ)) ^ 2
        + (((i % c : ℕ) : ℤ) - ((j % c : ℕ) : ℤ)) ^ 2) ∧
    (∀ i, (SOM.init r c nb ne h0 hN rm ini).d2mat i i = 0) ∧
    (∀ i j, (SOM.init r c nb ne h0 hN rm ini).d2mat i j =
      (SOM.init r c nb ne h0 hN rm ini).d2mat j i) ∧
    (∀ i j, 0 ≤ (SOM.init r c nb ne h0 hN rm ini).d2mat i j) ∧
    (∀ randWts pcaWts X,
      (SOM.fit randWts pcaWts (SOM.init r c nb ne h0 hN rm ini) X).1.d2mat =
        (SOM.init r c nb ne h0 hN rm ini).d2mat) ∧
    (∀ s : SOM, (SOM.make_kernels s).d2mat = s.d2mat) ∧
    (∀ r1 p1 r2 p2 (cl : SOM_cluster) X y,
      (SOM_cluster.fit r1 p1 r2 p2 cl X y).1.d2mat = cl.d2mat) := by
  refine ⟨?_, ?_, ?_, ?_, ?_, make_kernels_d2mat, cluster_fit_d2mat⟩
  · intro i j
    show gridD2 c i j = _
    unfold gridD2; ring
  · intro i
    exact gridD2_self c i
  · intro i j
    exact gridD2_symm c i j
  · intro i j
    exact gridD2_nonneg c i j
  · intro randWts pcaWts X
    exact fit_d2mat randWts pcaWts _ X

/-- Witness for C5 on a 2x2 lattice. -/
theorem d2mat_invariants_witness :
    ((SOM.init 2 2 "gaussian" 10 (1 / 2) (1 / 100) (some 1) "pca").d2mat 0 1 =
      (((0 / 2 : ℕ) : ℤ) - ((1 / 2 : ℕ) : ℤ)) ^ 2
        + (((0 % 2 : ℕ) : ℤ) - ((1 % 2 : ℕ) : ℤ)) ^ 2) ∧
    ((SOM.init 2 2 "gaussian" 10 (1 / 2) (1 / 100) (some 1) "pca").d2mat 3 3 = 0) ∧
    ((SOM.init 2 2 "gaussian" 10 (1 / 2) (1 / 100) (some 1) "pca").d2mat 0 3 =
      (SOM.init 2 2 "gaussian" 10 (1 / 2) (1 / 100) (some 1) "pca").d2mat 3 0) ∧
    (0 ≤ (SOM.init 2 2 "gaussian" 10 (1 / 2) (1 / 100) (some 1) "pca").d2mat 0 3) := by
  have h := d2mat_invariants 2 2 (by norm_num) (by norm_num) "gaussian" 10
    (1 / 2) (1 / 100) (some 1) "pca"
  exact ⟨h.1 0 1, h.2.1 3, h.2.2.1 0 3, h.2.2.2.1 0 3⟩

/-! ### The batch weight update -/

theorem getD_range (k j : ℕ) (hj : j < k) : (List.range k).getD j 0 = j := by
  rw [List.getD_eq_getElem _ 0 (by simpa using hj)]
  exact List.getElem_range j (by simpa using hj)

theorem updateWts_entry (k nFeat : ℕ) (X : List (List ℝ)) (K : ℕ → ℕ → ℝ)
    (bm : List ℕ) (j f : ℕ) (hj : j < k) (hf : f < nFeat) :
    ((updateWts k nFeat X K bm).getD j []).getD f 0 =
      fitNum X K bm j f / fitDenom X K bm j := by
  unfold updateWts
  rw [getD_map_lt _ (List.range k) j (by simpa using hj) [] 0, getD_range k j hj,
    getD_map_lt _ (List.range nFeat) f (by simpa using hf) 0 0, getD_range nFeat f hf]

/-- C1: during each training epoch `e < n_epochs` of the loop of `SOM.fit`,
the new weight matrix is `updateWts` applied to the current BMUs; entry
`(j, f)` equals `numerator/denominator` with
`numerator = Σ_i X[i,f]·K[e][BMU[i],j]` and `denominator = Σ_i K[e][BMU[i],j]`;
and when the denominator of neuron `j` vanishes (the kernel weights being
non-negative), the numerator vanishes too and the floating-point division the
code performs produces NaN — not any finite (clamped or unchanged) value. -/
theorem fit_epoch_weighted_centroid (k nFeat nEpochs : ℕ) (X : List (List ℝ))
    (Ks : ℕ → ℕ → ℕ → ℝ) (w0 : List (List ℝ)) (e : ℕ) (he : e < nEpochs)
    (bm : List ℕ) (hbm : bm = calc_BMUs (loopWts k nFeat X Ks e w0) X)
    (hK : ∀ i j, 0 ≤ Ks e i j) :
    loopWts k nFeat X Ks (e + 1) w0 = updateWts k nFeat X (Ks e) bm ∧
    (∀ j f, j < k → f < nFeat →
      ((loopWts k nFeat X Ks (e + 1) w0).getD j []).getD f 0 =
        fitNum X (Ks e) bm j f / fitDenom X (Ks e) bm j) ∧
    (∀ j f, fitDenom X (Ks e) bm j = 0 →
      fitNum X (Ks e) bm j f = 0 ∧
      fdiv (fitNum X (Ks e) bm j f) (fitDenom X (Ks e) bm j) = FVal.nan ∧
      ∀ q : ℝ, fdiv (fitNum X (Ks e) bm j f) (fitDenom X (Ks e) bm j) ≠ FVal.fin q) := by
  subst hbm
  refine ⟨rfl, ?_, ?_⟩
  · intro j f hj hf
    exact updateWts_entry k nFeat X (Ks e) _ j f hj hf
  · intro j f hd
    have hterm : ∀ i ∈ Finset.range X.length,
        Ks e ((calc_BMUs (loopWts k nFeat X Ks e w0) X).getD i 0) j = 0 := by
      rw [← Finset.sum_eq_zero_iff_of_nonneg (fun i _ => hK _ j)]
      exact hd
    have hnum : fitNum X (Ks e) (calc_BMUs (loopWts k nFeat X Ks e w0) X) j f = 0 := by
      unfold fitNum
      apply Finset.sum_eq_zero
      intro i hi
      rw [hterm i hi, mul_zero]
    refine ⟨hnum, ?_, ?_⟩
    · unfold fdiv
      rw [if_pos hd, if_pos hnum]
    · intro q
      unfold fdiv
      rw [if_pos hd, if_pos hnum]
      exact fun h => FVal.noConfusion h

/-- Witness for C1: one sample, one neuron; the all-ones kernel exercises the
centroid formula, the all-zeros kernel exercises the NaN branch. -/
theorem fit_epoch_weighted_centroid_witness :
    (((loopWts 1 1 [[(1 : ℝ)]] (fun _ _ _ => 1) (0 + 1) [[(0 : ℝ)]]).getD 0 []).getD 0 0 =
      fitNum [[(1 : ℝ)]] (fun _ _ => 1) [0] 0 0 /
        fitDenom [[(1 : ℝ)]] (fun _ _ => 1) [0] 0) ∧
    (fdiv (fitNum [[(1 : ℝ)]] (fun _ _ => (0 : ℝ)) [0] 0 0)
        (fitDenom [[(1 : ℝ)]] (fun _ _ => (0 : ℝ)) [0] 0) = FVal.nan) := by
  have h1 := fit_epoch_weighted_centroid 1 1 1 [[(1 : ℝ)]] (fun _ _ _ => 1)
    [[(0 : ℝ)]] 0 (by norm_num) [0] (by rfl) (fun i j => by norm_num)
  have h2 := fit_epoch_weighted_centroid 1 1 1 [[(1 : ℝ)]] (fun _ _ _ => 0)
    [[(0 : ℝ)]] 0 (by norm_num) [0] (by rfl) (fun i j => by norm_num)
  have hd : fitDenom [[(1 : ℝ)]] ((fun _ _ _ => (0 : ℝ)) 0) [0] 0 = 0 := by
    simp [fitDenom]
  exact ⟨h1.2.1 0 0 (by norm_num) (by norm_num), (h2.2.2 0 0 hd).2.1⟩

/-! ### Successful fit and `predict` -/

theorem fit_ok_fields (randWts pcaWts : List (List ℝ)) (s : SOM) (X : List (List ℝ))
    (h : (SOM.fit randWts pcaWts s X).2 = FitOutcome.ok) :
    ∃ w0 Ks,
      ((s.initial = "random" ∧ w0 = randWts) ∨ (s.initial = "pca" ∧ w0 = pcaWts)) ∧
      (SOM.fit randWts pcaWts s X).1.wts =
        some (loopWts (s.n_rows * s.n_cols) (X.headD []).length X Ks s.n_epochs w0) ∧
      (SOM.fit randWts pcaWts s X).1.bmus =
        some (calc_BMUs
          (loopWts (s.n_rows * s.n_cols) (X.headD []).length X Ks s.n_epochs w0) X) := by
  by_cases h1 : s.initial = "random"
  · rcases hk : (SOM.make_kernels { s with wts := some randWts }).kernels with _ | Ks
    · exfalso
      simp only [SOM.fit] at h
      rw [if_pos h1] at h
      dsimp only at h
      rw [hk] at h
      simp at h
    · refine ⟨randWts, Ks, Or.inl ⟨h1, rfl⟩, ?_, ?_⟩ <;>
        (simp only [SOM.fit]; rw [if_pos h1]; dsimp only; rw [hk])
  · by_cases h2 : s.initial = "pca"
    · rcases hk : (SOM.make_kernels { s with wts := some pcaWts }).kernels with _ | Ks
      · exfalso
        simp only [SOM.fit] at h
        rw [if_neg h1, if_pos h2] at h
        dsimp only at h
        rw [hk] at h
        simp at h
      · refine ⟨pcaWts, Ks, Or.inr ⟨h2, rfl⟩, ?_, ?_⟩ <;>
          (simp only [SOM.fit]; rw [if_neg h1, if_pos h2]; dsimp only; rw [hk])
    · exfalso
      simp only [SOM.fit] at h
      rw [if_neg h1, if_neg h2] at h
      simp at h

/-- C6: after a successful `fit`, `predict` returns the training-time BMU
vector of the training set for every argument (the argument is ignored), and
`predict` on a freshly constructed instance returns the `None` sentinel (the
not-fitted report) without crashing. -/
theorem predict_returns_cached_bmus (randWts pcaWts : List (List ℝ)) (s : SOM)
    (X : List (List ℝ))
    (hok : (SOM.fit randWts pcaWts s X).2 = FitOutcome.ok) :
    (∃ W, (SOM.fit randWts pcaWts s X).1.wts = some W ∧
      (SOM.fit randWts pcaWts s X).1.bmus = some (calc_BMUs W X) ∧
      (∀ Y, SOM.predict (SOM.fit randWts pcaWts s X).1 Y = some (calc_BMUs W X)) ∧
      (∀ Y Z, SOM.predict (SOM.fit randWts pcaWts s X).1 Y =
        SOM.predict (SOM.fit randWts pcaWts s X).1 Z)) ∧
    (∀ (a b : ℕ) (nb : String) (nep : ℕ) (h0 hN : ℝ) (rm : Option ℝ) (ini : String) Y,
      SOM.predict (SOM.init a b nb nep h0 hN rm ini) Y = none) := by
  constructor
  · obtain ⟨w0, Ks, _, hwts, hbmus⟩ := fit_ok_fields randWts pcaWts s X hok
    refine ⟨loopWts (s.n_rows * s.n_cols) (X.headD []).length X Ks s.n_epochs w0,
      hwts, hbmus, ?_, ?_⟩
    · intro Y
      unfold SOM.predict
      rw [hwts]
      exact hbmus
    · intro Y Z
      rfl
  · intro a b nb nep h0 hN rm ini Y
    rfl

/-- Witness for C6: a concrete successful fit whose `predict` ignores its
argument, and a fresh instance whose `predict` reports not-fitted. -/
theorem predict_returns_cached_bmus_witness :
    SOM.predict (SOM.fit [[(5 : ℝ)]] []
        (SOM.init 1 1 "bubble" 1 (1 / 2) (1 / 100) (some 1) "random") [[(0 : ℝ)]]).1
        [[(9 : ℝ)]] =
      SOM.predict (SOM.fit [[(5 : ℝ)]] []
        (SOM.init 1 1 "bubble" 1 (1 / 2) (1 / 100) (some 1) "random") [[(0 : ℝ)]]).1
        [[(8 : ℝ)]] ∧
    SOM.predict (SOM.init 2 3 "gaussian" 10 (1 / 2) (1 / 100) none "pca") [[(7 : ℝ)]] =
      none := by
  have h := predict_returns_cached_bmus [[(5 : ℝ)]] []
    (SOM.init 1 1 "bubble" 1 (1 / 2) (1 / 100) (some 1) "random") [[(0 : ℝ)]] (by rfl)
  obtain ⟨W, _, _, _, hI⟩ := h.1
  exact ⟨hI [[(9 : ℝ)]] [[(8 : ℝ)]],
    h.2 2 3 "gaussian" 10 (1 / 2) (1 / 100) none "pca" [[(7 : ℝ)]]⟩

/-! ### Configuration errors in `fit` -/

theorem make_kernels_wts (s : SOM) : (SOM.make_kernels s).wts = s.wts := by
  unfold SOM.make_kernels; split <;> rfl

theorem make_kernels_bmus (s : SOM) : (SOM.make_kernels s).bmus = s.bmus := by
  unfold SOM.make_kernels; split <;> rfl

/-- C7 counterexample: calling `fit` with the unrecognised neighbourhood
family `"foo"` on a fresh model does NOT leave the persistent state
unmutated: the initialiser has already overwritten `wts` (from `none` to the
drawn matrix) before the family is inspected, and the call then ends in the
`AttributeError` at `self.kernels[i]` rather than a clean failure signal. -/
theorem fit_invalid_family_cex :
    ((SOM.fit [[(0 : ℝ)], [1]] []
        (SOM.init 1 2 "foo" 1 (1 / 2) (1 / 100) (some 1) "random") [[(0 : ℝ)]]).1.wts =
      some [[(0 : ℝ)], [1]]) ∧
    ((SOM.fit [[(0 : ℝ)], [1]] []
        (SOM.init 1 2 "foo" 1 (1 / 2) (1 / 100) (some 1) "random") [[(0 : ℝ)]]).2 =
      FitOutcome.missingKernels) ∧
    (SOM.init 1 2 "foo" 1 (1 / 2) (1 / 100) (some 1) "random").wts = none := by
  exact ⟨rfl, rfl, rfl⟩

/-- C7 (amended): an unrecognised initialiser mode is detected before any
mutation and `fit` returns the `None` failure signal with the state intact;
but an unrecognised neighbourhood family is only reported inside
`make_kernels`, whose `None` return `fit` ignores: the weights have already
been overwritten by the initialiser, and (with no stale kernels available)
the call then aborts with the missing-kernels `AttributeError`, leaving the
mutated weights behind. -/
theorem fit_config_error_amended (randWts pcaWts : List (List ℝ)) (s : SOM)
    (X : List (List ℝ)) :
    (s.initial ≠ "random" → s.initial ≠ "pca" →
      SOM.fit randWts pcaWts s X = (s, FitOutcome.invalidInitial)) ∧
    (s.initial = "random" → s.kernels = none →
      makeKernels s.neighbourhood s.Rmax s.n_epochs s.d2mat = none →
      (SOM.fit randWts pcaWts s X).2 = FitOutcome.missingKernels ∧
      (SOM.fit randWts pcaWts s X).1.wts = some randWts ∧
      (SOM.fit randWts pcaWts s X).1.bmus = s.bmus ∧
      (SOM.fit randWts pcaWts s X).1.kernels = none) := by
  constructor
  · intro h1 h2
    simp only [SOM.fit]
    rw [if_neg h1, if_neg h2]
  · intro h1 hkern hmk
    have hs2 : (SOM.make_kernels { s with wts := some randWts }).kernels = none := by
      unfold SOM.make_kernels
      dsimp only
      rw [hmk]
      exact hkern
    simp only [SOM.fit]
    rw [if_pos h1]
    dsimp only
    rw [hs2]
    refine ⟨rfl, ?_, ?_, ?_⟩
    · rw [make_kernels_wts]
    · rw [make_kernels_bmus]
    · exact hs2

/-- Witness for C7 (amended): a concrete invalid initialiser and a concrete
invalid neighbourhood family. -/
theorem fit_config_error_amended_witness :
    (SOM.fit [[(1 : ℝ)]] []
        (SOM.init 1 1 "gaussian" 1 (1 / 2) (1 / 100) (some 1) "xyz") [[(0 : ℝ)]] =
      (SOM.init 1 1 "gaussian" 1 (1 / 2) (1 / 100) (some 1) "xyz",
        FitOutcome.invalidInitial)) ∧
    ((SOM.fit [[(2 : ℝ)], [3]] []
        (SOM.init 1 2 "bar" 1 (1 / 2) (1 / 100) (some 1) "random") [[(0 : ℝ)]]).2 =
      FitOutcome.missingKernels) ∧
    ((SOM.fit [[(2 : ℝ)], [3]] []
        (SOM.init 1 2 "bar" 1 (1 / 2) (1 / 100) (some 1) "random") [[(0 : ℝ)]]).1.wts =
      some [[(2 : ℝ)], [3]]) := by
  have h1 := (fit_config_error_amended [[(1 : ℝ)]] []
    (SOM.init 1 1 "gaussian" 1 (1 / 2) (1 / 100) (some 1) "xyz") [[(0 : ℝ)]]).1
    (by decide) (by decide)
  have h2 := (fit_config_error_amended [[(2 : ℝ)], [3]] []
    (SOM.init 1 2 "bar" 1 (1 / 2) (1 / 100) (some 1) "random") [[(0 : ℝ)]]).2
    rfl rfl rfl
  exact ⟨h1, h2.1, h2.2.1⟩

/-! ### Construction never fails -/

/-- C8 counterexample: construction with `rows = 0` (a non-positive
dimension) does not fail with `InvalidDimension`: the constructor body
contains no dimension check and returns a normal state. -/
theorem init_zero_rows_succeeds_cex :
    SOM.init? 0 3 "gaussian" 10 (1 / 2) (1 / 100) (some 1) "pca" =
      some (SOM.init 0 3 "gaussian" 10 (1 / 2) (1 / 100) (some 1) "pca") ∧
    (SOM.init 0 3 "gaussian" 10 (1 / 2) (1 / 100) (some 1) "pca").n_rows = 0 ∧
    (SOM.init 0 3 "gaussian" 10 (1 / 2) (1 / 100) (some 1) "pca").wts = none := by
  exact ⟨rfl, rfl, rfl⟩

/-- C8 (amended): construction never fails for any dimensions — there is no
`InvalidDimension` validation; non-positive dimensions yield a degenerate
zero-neuron lattice, and construction is pure and deterministic. -/
theorem init_never_fails (r c : ℕ) (nb : String) (nep : ℕ) (h0 hN : ℝ)
    (rm : Option ℝ) (ini : String) :
    SOM.init? r c nb nep h0 hN rm ini = some (SOM.init r c nb nep h0 hN rm ini) ∧
    (SOM.init? r c nb nep h0 hN rm ini).isSome = true := ⟨rfl, rfl⟩

/-! ### Supervised labelling of the clusterer -/

theorem loopWts_length (k nFeat : ℕ) (X : List (List ℝ)) (Ks : ℕ → ℕ → ℕ → ℝ)
    (n : ℕ) (hn : 1 ≤ n) (w : List (List ℝ)) :
    (loopWts k nFeat X Ks n w).length = k := by
  cases n with
  | zero => omega
  | succ m =>
    show (epochStep k nFeat X (Ks m) (loopWts k nFeat X Ks m w)).length = k
    unfold epochStep updateWts
    simp

theorem calc_BMUs_ne_nil (wts X : List (List ℝ)) (hX : X ≠ []) :
    calc_BMUs wts X ≠ [] := by
  simpa [calc_BMUs, List.map_eq_nil_iff] using hX

theorem calc_BMUs_mem_lt (wts X : List (List ℝ)) (hw : wts ≠ []) :
    ∀ b ∈ calc_BMUs wts X, b < wts.length := by
  intro b hb
  unfold calc_BMUs at hb
  obtain ⟨x, _, rfl⟩ := List.mem_map.mp hb
  have h := argminIdx_lt_length (wts.map (fun w => sqDist x w))
    (by simpa [List.map_eq_nil_iff] using hw)
  simpa using h

theorem majorityLabel_ne_none (l : List ℚ) (hl : l ≠ []) : majorityLabel l ≠ none := by
  have hd : l.dedup ≠ [] := by simpa [List.dedup_eq_nil] using hl
  have hlen : (uniqueSorted l).length = l.dedup.length :=
    List.length_insertionSort _ _
  have hu : uniqueSorted l ≠ [] := by
    intro h0
    rw [h0] at hlen
    exact hd (List.length_eq_zero.mp hlen.symm)
  unfold majorityLabel
  cases h : uniqueSorted l with
  | nil => exact absurd h hu
  | cons v vs => simp

theorem labelsFor_head_ne_nil (b : ℕ) (bt : List ℕ) (y0 : ℚ) (yt : List ℚ) :
    labelsFor (b :: bt) (y0 :: yt) b ≠ [] := by
  unfold labelsFor
  simp [List.zip_cons_cons, List.filter_cons]

theorem voteLabels_getD (k : ℕ) (ini : List (Option ℚ)) (bm : List ℕ) (y : List ℚ)
    (i : ℕ) (hi : i < k) :
    (voteLabels k ini bm y).getD i none =
      match majorityLabel (labelsFor bm y i) with
      | some v => some v
      | none => ini.getD i none := by
  unfold voteLabels
  rw [getD_map_lt _ (List.range k) i (by simpa using hi) none 0, getD_range k i hi]

theorem superviseLabels_getD (k : ℕ) (ini : List (Option ℚ)) (bm : List ℕ)
    (y : List ℚ) (dm : ℕ → ℕ → ℝ) (i : ℕ) (hi : i < k) :
    (superviseLabels k ini bm y dm).getD i none =
      match (voteLabels k ini bm y).getD i none with
      | some v => some v
      | none => (voteLabels k ini bm y).getD
          (argminIdx (maskedRow (voteLabels k ini bm y) dm k i)) none := by
  unfold superviseLabels
  rw [getD_map_lt _ (List.range k) i (by simpa using hi) none 0, getD_range k i hi]

theorem maskedRow_getD (labels : List (Option ℚ)) (dm : ℕ → ℕ → ℝ) (k i j : ℕ)
    (hj : j < k) :
    (maskedRow labels dm k i).getD j ⊤ =
      match labels.getD j none with
      | none => (⊤ : WithTop ℝ)
      | some _ => ((dm i j : ℝ) : WithTop ℝ) := by
  unfold maskedRow
  rw [getD_map_lt _ (List.range k) j (by simpa using hj) ⊤ 0, getD_range k j hj]

theorem maskedRow_length (labels : List (Option ℚ)) (dm : ℕ → ℕ → ℝ) (k i : ℕ) :
    (maskedRow labels dm k i).length = k := by
  simp [maskedRow]

theorem superviseLabels_no_none (k : ℕ) (ini : List (Option ℚ)) (bm : List ℕ)
    (y : List ℚ) (dm : ℕ → ℕ → ℝ) (hbm : bm ≠ []) (hy : y ≠ [])
    (hlt : ∀ b ∈ bm, b < k) :
    ∀ i, i < k → (superviseLabels k ini bm y dm).getD i none ≠ none := by
  obtain ⟨b, bt, rfl⟩ := List.exists_cons_of_ne_nil hbm
  obtain ⟨y0, yt, rfl⟩ := List.exists_cons_of_ne_nil hy
  have hbk : b < k := hlt b (by simp)
  have hvb : (voteLabels k ini (b :: bt) (y0 :: yt)).getD b none ≠ none := by
    rw [voteLabels_getD k ini _ _ b hbk]
    have hmaj := majorityLabel_ne_none (labelsFor (b :: bt) (y0 :: yt) b)
      (labelsFor_head_ne_nil b bt y0 yt)
    cases hm : majorityLabel (labelsFor (b :: bt) (y0 :: yt) b) with
    | none => exact absurd hm hmaj
    | some v => simp
  intro i hi
  rw [superviseLabels_getD k ini (b :: bt) (y0 :: yt) dm i hi]
  cases hv : (voteLabels k ini (b :: bt) (y0 :: yt)).getD i none with
  | some v => simp
  | none =>
    dsimp only
    have hMlen : (maskedRow (voteLabels k ini (b :: bt) (y0 :: yt)) dm k i).length = k :=
      maskedRow_length _ dm k i
    have hMne : maskedRow (voteLabels k ini (b :: bt) (y0 :: yt)) dm k i ≠ [] := by
      intro h0
      rw [h0] at hMlen
      simp at hMlen
      omega
    have hnear : argminIdx (maskedRow (voteLabels k ini (b :: bt) (y0 :: yt)) dm k i) < k := by
      have h0 := argminIdx_lt_length _ hMne
      rwa [hMlen] at h0
    have hMb : (maskedRow (voteLabels k ini (b :: bt) (y0 :: yt)) dm k i).getD b ⊤ =
        ((dm i b : ℝ) : WithTop ℝ) := by
      rw [maskedRow_getD (voteLabels k ini (b :: bt) (y0 :: yt)) dm k i b hbk]
      cases hvb2 : (voteLabels k ini (b :: bt) (y0 :: yt)).getD b none with
      | none => exact absurd hvb2 hvb
      | some v => rfl
    have hmin := argminIdx_le (maskedRow (voteLabels k ini (b :: bt) (y0 :: yt)) dm k i)
      ⊤ b (by omega)
    rw [hMb] at hmin
    have hne_top : (maskedRow (voteLabels k ini (b :: bt) (y0 :: yt)) dm k i).getD
        (argminIdx (maskedRow (voteLabels k ini (b :: bt) (y0 :: yt)) dm k i)) ⊤ ≠ ⊤ := by
      intro htop
      rw [htop] at hmin
      exact absurd hmin (by simp)
    rw [maskedRow_getD (voteLabels k ini (b :: bt) (y0 :: yt)) dm k i _ hnear] at hne_top
    cases hv2 : (voteLabels k ini (b :: bt) (y0 :: yt)).getD
        (argminIdx (maskedRow (voteLabels k ini (b :: bt) (y0 :: yt)) dm k i)) none with
    | none =>
      rw [hv2] at hne_top
      simp at hne_top
    | some v => simp

/-- C9: after a successful supervised fit of the clusterer on non-empty `X`
and `y` (with a non-degenerate lattice and at least one epoch), the
`neuron_to_label` map has no unset (NaN) entry: every neuron is labelled
either by majority vote or by backfill from the nearest labelled neuron. -/
theorem cluster_supervised_all_labelled (r1 p1 r2 p2 : List (List ℝ))
    (c : SOM_cluster) (X : List (List ℝ)) (ylist : List ℚ)
    (hne : 1 ≤ c.n_epochs) (hk : 0 < c.n_cols * c.n_rows)
    (hX : X ≠ []) (hy : ylist ≠ [])
    (hok : (SOM_cluster.fit r1 p1 r2 p2 c X (some ylist)).2 = FitOutcome.ok) :
    ∀ i, i < c.n_cols * c.n_rows →
      ((SOM_cluster.fit r1 p1 r2 p2 c X (some ylist)).1.neuron_to_label).getD i none ≠
        none := by
  intro i hi
  unfold SOM_cluster.fit at hok ⊢
  rcases hf : SOM.fit r1 p1 c.toSOM X with ⟨s1, o⟩
  cases o with
  | invalidInitial => rw [hf] at hok; simp at hok
  | missingKernels => rw [hf] at hok; simp at hok
  | ok =>
    dsimp only
    have hfok : (SOM.fit r1 p1 c.toSOM X).2 = FitOutcome.ok := by rw [hf]
    obtain ⟨w0, Ks, _, hwts, hbmus⟩ := fit_ok_fields r1 p1 c.toSOM X hfok
    rw [hf] at hwts hbmus
    dsimp only at hwts hbmus
    have hWlen : (loopWts (c.toSOM.n_rows * c.toSOM.n_cols) (X.headD []).length X Ks
        c.toSOM.n_epochs w0).length = c.toSOM.n_rows * c.toSOM.n_cols :=
      loopWts_length _ _ X Ks c.toSOM.n_epochs hne w0
    have hkk : 0 < c.toSOM.n_rows * c.toSOM.n_cols := by
      rwa [Nat.mul_comm] at hk
    have hWne : loopWts (c.toSOM.n_rows * c.toSOM.n_cols) (X.headD []).length X Ks
        c.toSOM.n_epochs w0 ≠ [] := by
      intro h0
      rw [h0] at hWlen
      simp only [List.length_nil] at hWlen
      omega
    have hbm : s1.bmus.getD [] = calc_BMUs (loopWts (c.toSOM.n_rows * c.toSOM.n_cols)
        (X.headD []).length X Ks c.toSOM.n_epochs w0) X := by
      rw [hbmus]
      rfl
    apply superviseLabels_no_none (c.n_cols * c.n_rows) c.neuron_to_label
      (s1.bmus.getD []) ylist _ ?_ hy ?_ i hi
    · rw [hbm]
      exact calc_BMUs_ne_nil _ X hX
    · intro bb hbb
      rw [hbm] at hbb
      have hlt := calc_BMUs_mem_lt _ X hWne bb hbb
      rw [hWlen] at hlt
      rwa [Nat.mul_comm] at hlt

/-- Witness for C9: one neuron, one sample, one label. -/
theorem cluster_supervised_all_labelled_witness :
    ((SOM_cluster.fit [[(0 : ℝ)]] [] [] []
        (SOM_cluster.init 1 1 1 "bubble" 1 (1 / 2) (1 / 100) (some 1) "random")
        [[(0 : ℝ)]] (some [(3 : ℚ)])).1.neuron_to_label).getD 0 none ≠ none := by
  exact cluster_supervised_all_labelled [[(0 : ℝ)]] [] [] []
    (SOM_cluster.init 1 1 1 "bubble" 1 (1 / 2) (1 / 100) (some 1) "random")
    [[(0 : ℝ)]] [(3 : ℚ)] (Nat.le_refl 1) Nat.one_pos (by simp) (by simp)
    (by rfl) 0 Nat.one_pos

/-! ### The unsupervised second stage -/

theorem secondStage_fit_ok (r p : List (List ℝ)) (nc : ℕ) (Y : List (List ℝ)) :
    (SOM.fit r p (secondStageSOM nc) Y).2 = FitOutcome.ok := by
  rfl

/-- C10: the second-stage trainer that the unsupervised branch of
`SOM_cluster.fit` runs on the first-stage weights is constructed with all
default hyperparameters (`gaussian`, 10 epochs, default `Rmax` computed from
the 1-row lattice, `pca`), regardless of how the clusterer itself was configured;
only `n_clusters`, as the column count of the 1-row lattice, comes from the
clusterer. -/
theorem cluster_second_stage_defaults (nc nr ncol : ℕ) (nb : String) (nep : ℕ)
    (h0 hN : ℝ) (rm : Option ℝ) (ini : String) :
    secondStageSOM (SOM_cluster.init nc nr ncol nb nep h0 hN rm ini).n_clusters =
      SOM.init 1 nc "gaussian" 10 (1 / 2) (1 / 100) none "pca" ∧
    (secondStageSOM nc).neighbourhood = "gaussian" ∧
    (secondStageSOM nc).n_epochs = 10 ∧
    (secondStageSOM nc).initial = "pca" ∧
    (secondStageSOM nc).n_rows = 1 ∧
    (secondStageSOM nc).n_cols = nc ∧
    (secondStageSOM nc).h0_Rmax = 1 / 2 ∧
    (secondStageSOM nc).hN_R1 = 1 / 100 ∧
    (secondStageSOM nc).Rmax = Real.sqrt (((nc : ℝ) - 1) ^ 2 + ((1 : ℝ) - 1) ^ 2) ∧
    (∀ r1 p1 r2 p2 X,
      (SOM.fit r1 p1 (SOM_cluster.init nc nr ncol nb nep h0 hN rm ini).toSOM X).2 =
          FitOutcome.ok →
      (SOM_cluster.fit r1 p1 r2 p2
          (SOM_cluster.init nc nr ncol nb nep h0 hN rm ini) X none).1.neuron_to_label =
        ((SOM.fit r2 p2 (secondStageSOM nc)
            ((SOM.fit r1 p1 (SOM_cluster.init nc nr ncol nb nep h0 hN rm ini).toSOM
              X).1.wts.getD [])).1.bmus.getD []).map (fun b => some ((b : ℚ)))) := by
  refine ⟨rfl, rfl, rfl, rfl, rfl, rfl, rfl, rfl,
    by norm_num [secondStageSOM, SOM.init], ?_⟩
  intro r1 p1 r2 p2 X hfo
  unfold SOM_cluster.fit
  rcases hf : SOM.fit r1 p1 (SOM_cluster.init nc nr ncol nb nep h0 hN rm ini).toSOM X
    with ⟨s1, o⟩
  cases o with
  | invalidInitial => rw [hf] at hfo; simp at hfo
  | missingKernels => rw [hf] at hfo; simp at hfo
  | ok =>
    have hnc : (SOM_cluster.init nc nr ncol nb nep h0 hN rm ini).n_clusters = nc := rfl
    dsimp only
    rw [hnc]
    rcases hf2 : SOM.fit r2 p2 (secondStageSOM nc) (s1.wts.getD []) with ⟨s2, o2⟩
    have ho2 : o2 = FitOutcome.ok := by
      have h2 := secondStage_fit_ok r2 p2 nc (s1.wts.getD [])
      rw [hf2] at h2
      exact h2
    subst ho2
    rfl

/-- Witness for C10: a clusterer configured with non-default hyperparameters
whose second stage nevertheless runs the all-defaults trainer. -/
theorem cluster_second_stage_defaults_witness :
    (secondStageSOM 2).neighbourhood = "gaussian" ∧
    (SOM_cluster.fit [[(0 : ℝ)]] [] [[(9 : ℝ)], [8]] []
        (SOM_cluster.init 2 1 1 "bubble" 1 (1 / 2) (1 / 100) (some 1) "random")
        [[(0 : ℝ)]] none).1.neuron_to_label =
      ((SOM.fit [[(9 : ℝ)], [8]] [] (secondStageSOM 2)
          ((SOM.fit [[(0 : ℝ)]] []
            (SOM_cluster.init 2 1 1 "bubble" 1 (1 / 2) (1 / 100) (some 1) "random").toSOM
            [[(0 : ℝ)]]).1.wts.getD [])).1.bmus.getD []).map (fun b => some ((b : ℚ))) := by
  have h := cluster_second_stage_defaults 2 1 1 "bubble" 1 (1 / 2) (1 / 100)
    (some 1) "random"
  exact ⟨h.2.1, h.2.2.2.2.2.2.2.2.2 [[(0 : ℝ)]] [] [[(9 : ℝ)], [8]] [] [[(0 : ℝ)]] (by rfl)⟩
